import Mathlib

/-!
Verification development for the smc-dining-ocr pipeline.

The Python source (src/ocr_items.py, src/utils.py, src/emailer.py) is shallowly
embedded below.  Machine integers are modelled as `Int`/`Nat` (Python ints are
unbounded, so no wrap-around is needed), Python `None` as `Option.none`, and
Python strings as Lean `String` (token text in this pipeline is ASCII; `isdigit`
and the `[A-Za-z]` regex are modelled over ASCII characters accordingly).
Floating-point totals produced by pandas are integer-valued sums of integer
quantities and are modelled as `Int`.
-/

/-! ## Character and string helpers (Python `str` operations) -/

/-- Membership test for `[A-Za-z]`, used by `ALPHA_RE.search`. -/
def isAsciiAlpha (c : Char) : Bool := c.isAlpha

/-- The character class kept by `re.sub of the disallowed-character class with a space`:
letters, digits, apostrophe, slash, hyphen. -/
def allowedChar (c : Char) : Bool :=
  c.isAlpha || c.isDigit || c = '\x27' || c = '/' || c = '-'

/-- Whitespace stripped by Python `str.strip()` (ASCII whitespace). -/
def pyWs (c : Char) : Bool :=
  c = ' ' || c = '\t' || c = '\n' || c = '\r' || c = '\x0b' || c = '\x0c'

/-- The cleaning substitution: each maximal run of disallowed
characters is replaced by a single space.  The Boolean flag records whether the
previous character belonged to such a run (so the run yields only one space). -/
def collapseSub : Bool → List Char → List Char
  | _, [] => []
  | inRun, c :: cs =>
    if allowedChar c then c :: collapseSub false cs
    else if inRun then collapseSub true cs
    else ' ' :: collapseSub true cs

/-- Python `str.strip()` on a character list. -/
def stripChars (l : List Char) : List Char :=
  ((l.dropWhile pyWs).reverse.dropWhile pyWs).reverse

/-- Python `str.strip()`. -/
def pyStrip (s : String) : String := String.mk (stripChars s.toList)

/-- Python `str.isdigit()` (ASCII digits; OCR tokens here are ASCII). -/
def pyIsDigit (s : String) : Bool := !s.isEmpty && s.toList.all Char.isDigit

/-- Boolean form of `ALPHA_RE.search(txt)`: the string contains a letter. -/
def hasAlphaStr (s : String) : Bool := s.toList.any isAsciiAlpha

/-- Python `int(·)` on a digit-only string: its decimal value. -/
def pyInt (s : String) : Int :=
  ((s.toList.foldl (fun n c => n * 10 + (c.toNat - 48)) 0 : Nat) : Int)

/-- The cleaned item token: `re.sub of the disallowed-character class with a space.strip()`. -/
def cleanToken (s : String) : List Char := stripChars (collapseSub false s.toList)

/-- Python `" ".join(words)` on character lists. -/
def joinWords : List (List Char) → List Char
  | [] => []
  | [w] => w
  | w :: ws => w ++ ' ' :: joinWords ws

/-! ## `src/ocr_items.py` — data model and line grouping -/

/-- One OCR word box `(y, x, txt, conf)` as built by `_group_lines` from the
tesseract dictionary (`y = top`, `x = left`, text already stripped and
non-empty, confidence `-1` when unparseable). -/
structure WordBox where
  y : Int
  x : Int
  txt : String
  conf : Int
deriving DecidableEq, Repr

/-- The sort key used by `pts.sort(key=lambda r: (r[0], r[1]))`:
lexicographic on `(y, x)`. -/
def lexYX (a b : WordBox) : Prop :=
  a.y < b.y ∨ (a.y = b.y ∧ a.x ≤ b.x)

instance : DecidableRel lexYX := fun a b => by
  unfold lexYX
  infer_instance

instance lexYX_total : IsTotal WordBox lexYX where
  total a b := by unfold lexYX; omega

instance lexYX_trans : IsTrans WordBox lexYX where
  trans a b c hab hbc := by unfold lexYX at *; omega

/-- Python `list.sort` is stable; a stable sort's output is determined by the
ordering alone, so the (stable) insertion sort is extensionally the same
function. -/
def sortPts (pts : List WordBox) : List WordBox := pts.insertionSort lexYX

/-- The raw tesseract row for index `i`: `data["text"][i]`, `data["conf"][i]`
(already through `int(float(·))`, `none` when that conversion raised),
`data["top"][i]`, `data["left"][i]`. -/
structure RawTess where
  text : String
  conf : Option Int
  top : Int
  left : Int

/-- The `pts` construction loop of `_group_lines`: strip the text, drop empty
tokens, default the confidence to `-1`. -/
def buildPts (data : List RawTess) : List WordBox :=
  data.filterMap fun d =>
    let t := pyStrip d.text
    if t = "" then none else some ⟨d.top, d.left, t, d.conf.getD (-1)⟩

/-- The grouping walk of `_group_lines`: state is the accumulated finished
`lines`, the current line `cur`, and `prev_y` (`none` before the first box). -/
def groupGo (y_tol : Int) : List WordBox → List (List WordBox) → List WordBox →
    Option Int → List (List WordBox)
  | [], lines, cur, _ => if cur = [] then lines else lines ++ [cur]
  | p :: rest, lines, cur, prevY =>
    match prevY with
    | none => groupGo y_tol rest lines (cur ++ [p]) (some p.y)
    | some py =>
      if |p.y - py| ≤ y_tol then
        groupGo y_tol rest lines (cur ++ [p]) (some p.y)
      else
        groupGo y_tol rest (if cur = [] then lines else lines ++ [cur]) [p] (some p.y)

/-- The core of `_group_lines` on an already-built point list. -/
def groupLines (pts : List WordBox) (y_tol : Int) : List (List WordBox) :=
  groupGo y_tol (sortPts pts) [] [] none

/-- Source `_group_lines(data, y_tol)` from the raw tesseract dictionary. -/
def group_lines (data : List RawTess) (y_tol : Int) : List (List WordBox) :=
  groupLines (buildPts data) y_tol

/-! ## `src/utils.py` — `sanitize_quantity_range` -/

/-- Source `sanitize_quantity_range(q, min_q, max_q)`.  In the pipeline the quantity
of a `Record` is `Optional[int]` (the Field Extractor produces `int` or
`None`), so the argument is modelled as `Option Int`; on an `int` input,
Python `int(q)` is the identity and never raises. -/
def sanitize_quantity_range (q : Option Int) (min_q max_q : Int) : Option Int :=
  match q with
  | none => none
  | some iv => if iv < min_q ∨ iv > max_q then none else some iv

/-! ## `src/ocr_items.py` — field extraction -/

/-- Source constant `ITEM_TOKEN_MIN_LEN`. -/
def ITEM_TOKEN_MIN_LEN : Nat := 2

/-- The token loop of `_extract_line_item_and_qty`: state is `(qty, qty_conf)`
(initially `(None, -1)`) and the accumulated `words` list.  A digit-only token
updates the quantity when `conf >= conf_threshold and conf > qty_conf`; a
token containing a letter is cleaned and kept as an item word when its cleaned
length is at least `ITEM_TOKEN_MIN_LEN`. -/
def extractGo (conf_threshold : Int) :
    List WordBox → Option Int → Int → List (List Char) → Option String × Option Int
  | [], qty, _, words =>
    let j := stripChars (joinWords words)
    (if j = [] then none else some (String.mk j), qty)
  | t :: ts, qty, qty_conf, words =>
    if pyIsDigit t.txt then
      if conf_threshold ≤ t.conf ∧ qty_conf < t.conf then
        extractGo conf_threshold ts (some (pyInt t.txt)) t.conf words
      else
        extractGo conf_threshold ts qty qty_conf words
    else if hasAlphaStr t.txt then
      if ITEM_TOKEN_MIN_LEN ≤ (cleanToken t.txt).length then
        extractGo conf_threshold ts qty qty_conf (words ++ [cleanToken t.txt])
      else
        extractGo conf_threshold ts qty qty_conf words
    else
      extractGo conf_threshold ts qty qty_conf words

/-- Source `_extract_line_item_and_qty(tokens, conf_threshold)`. -/
def extract_line_item_and_qty (tokens : List WordBox) (conf_threshold : Int) :
    Option String × Option Int :=
  extractGo conf_threshold tokens none (-1) []

/-- A `Record` row `{"item": ..., "quantity": ...}`. -/
structure Record where
  item : Option String
  quantity : Option Int
deriving DecidableEq, Repr

/-- The row-building loop of `extract_items_quantities`: lines whose extraction
yields `item is None and qty is None` are skipped. -/
def buildRows (lines : List (List WordBox)) (conf_threshold : Int) : List Record :=
  lines.filterMap fun line =>
    let p := extract_line_item_and_qty line conf_threshold
    if p.1 = none ∧ p.2 = none then none else some ⟨p.1, p.2⟩

/-- The `cleaned` post-filter of `extract_items_quantities`:
`(r["item"] and ALPHA_RE.search(r["item"])) or (r["quantity"] is not None)`
(Python truthiness: an item passes only when non-null and non-empty). -/
def keepRecord (r : Record) : Bool :=
  (match r.item with
   | some s => !s.isEmpty && hasAlphaStr s
   | none => false) || r.quantity.isSome

/-- The DataFrame produced by `extract_items_quantities` from the grouped
lines (the image decoding, preprocessing and tesseract call that produce the
lines are the external OCR collaborator). -/
def extract_items_quantities (lines : List (List WordBox)) (conf_threshold : Int) :
    List Record :=
  (buildRows lines conf_threshold).filter keepRecord

/-! ## `src/utils.py` — `summarize_by_item` -/

/-- A raw quantity cell as seen by `pd.to_numeric(·, errors="coerce")`:
an integer, a null, or a non-numeric value. -/
inductive QVal where
  | num (n : Int)
  | null
  | nonnum (s : String)
deriving DecidableEq, Repr

/-- Coercion `pd.to_numeric` with coercing errors: non-numeric and null become NaN,
modelled as `none`. -/
def coerceQty : QVal → Option Int
  | .num n => some n
  | .null => none
  | .nonnum _ => none

/-- An input row of `summarize_by_item` (item possibly null, quantity raw). -/
structure RawRecord where
  item : Option String
  quantity : QVal
deriving DecidableEq, Repr

/-- pandas `sum` over a group with `skipna=True`: NaN entries are excluded
from the sum (an all-NaN group sums to `0.0`). -/
def pandasSum (qs : List QVal) : Int :=
  (qs.filterMap coerceQty).foldl (· + ·) 0

/-- Lexicographic code-point comparison of character lists: the order Python
uses to compare strings. -/
def charListLe : List Char → List Char → Bool
  | [], _ => true
  | _ :: _, [] => false
  | a :: as, b :: bs => if a < b then true else if b < a then false else charListLe as bs

/-- Python string `<=` as a proposition (pandas sorts group keys with it). -/
def strLe (a b : String) : Prop := charListLe a.toList b.toList = true

instance : DecidableRel strLe := fun a b => by
  unfold strLe
  infer_instance

/-- The group keys of `groupby("item", dropna=True)`: the distinct non-null
items, in ascending order (pandas `groupby` sorts keys by default). -/
def groupKeys (rs : List RawRecord) : List String :=
  ((rs.filterMap (·.item)).dedup).insertionSort strLe

/-- The `total_quantity` of one group: the coerced quantities of the rows
carrying this item, summed with NaN excluded. -/
def groupTotal (rs : List RawRecord) (k : String) : Int :=
  pandasSum ((rs.filter fun r => r.item = some k).map (·.quantity))

/-- The descending comparison used by
`sort_values("total_quantity", ascending=False)`.  pandas' default sort kind
is quicksort, whose ordering of rows with equal totals is implementation
defined; the embedding fixes one admissible order (a stable sort) and the
theorems below do not rely on how ties are broken. -/
def byTotalDesc (a b : String × Int) : Prop := b.2 ≤ a.2

instance : DecidableRel byTotalDesc := fun a b => by
  unfold byTotalDesc
  infer_instance

instance byTotalDesc_total : IsTotal (String × Int) byTotalDesc where
  total a b := by unfold byTotalDesc; omega

instance byTotalDesc_trans : IsTrans (String × Int) byTotalDesc where
  trans a b c hab hbc := by unfold byTotalDesc at *; omega

/-- Source `summarize_by_item(df)`: drop null items, coerce quantities, group by item
with sorted keys, sum each group, sort by total descending.  (The source's
empty/missing-column guard returns the empty frame; in this typed model the
columns always exist and an empty input yields an empty output.) -/
def summarize_by_item (rs : List RawRecord) : List (String × Int) :=
  ((groupKeys rs).map fun k => (k, groupTotal rs k)).insertionSort byTotalDesc

/-! ## `src/utils.py` — `to_csv_bytes` -/

/-- One DataFrame cell as rendered by `to_csv`: a string, an integer, an
integer-valued float (pandas prints `8.0`), or a null (printed blank). -/
inductive Cell where
  | s (v : String)
  | i (v : Int)
  | f (v : Int)
  | null
deriving DecidableEq, Repr

/-- A DataFrame: named columns and rows of cells (each row listing one cell
per column, in column order). -/
structure DF where
  cols : List String
  rows : List (List Cell)

/-- Whether `to_csv` must quote a string field (pandas QUOTE_MINIMAL). -/
def needsQuote (v : String) : Bool :=
  v.toList.any fun c => c = ',' || c = '\x22' || c = '\n' || c = '\r'

/-- Double embedded quotes inside a quoted field. -/
def escapeQuotes : List Char → List Char
  | [] => []
  | c :: cs => if c = '\x22' then '\x22' :: '\x22' :: escapeQuotes cs else c :: escapeQuotes cs

/-- Render a string field with minimal quoting. -/
def quoteMin (v : String) : String :=
  if needsQuote v then "\x22" ++ String.mk (escapeQuotes v.toList) ++ "\x22" else v

/-- Render one cell: blank for null, decimal for ints, `n.0` for
integer-valued floats. -/
def renderCell : Cell → String
  | .s v => quoteMin v
  | .i v => toString v
  | .f v => toString v ++ ".0"
  | .null => ""

/-- One CSV data line: the row's cells joined with commas. -/
def csvLine (r : List Cell) : String :=
  String.intercalate "," (r.map renderCell)

/-- Serialization `df.to_csv(index=False)`: header line then one line per row, each
newline-terminated. -/
def renderCsv (df : DF) : String :=
  String.intercalate "," df.cols ++ "\n" ++
    String.join (df.rows.map fun r => csvLine r ++ "\n")

/-- Column selection `df[cols]`: reindex to the given columns (each row keeps the cells of the
selected columns, in the requested order). -/
def selectCols (df : DF) (cs : List String) : DF :=
  ⟨cs, df.rows.map fun r => cs.map fun c => r.getD (df.cols.findIdx (· = c)) Cell.null⟩

/-- Source `to_csv_bytes(df)`: select the item and quantity columns when both exist,
otherwise pass the frame through unchanged, then serialize (UTF-8 encoding of
the resulting text is the identity on this model). -/
def to_csv_bytes (df : DF) : String :=
  if "item" ∈ df.cols ∧ "quantity" ∈ df.cols then
    renderCsv (selectCols df ["item", "quantity"])
  else
    renderCsv df

/-! ## `src/emailer.py` -/

/-- Python truthiness of `os.getenv(...)`: unset or empty is falsy. -/
def truthyEnv : Option String → Bool
  | none => false
  | some s => !s.isEmpty

/-- The process environment and the outcomes of the two network transports
(the HTTP response of the provider API and the possible exception of the
SMTP session are decided by the outside world and enter the model as
oracle fields). -/
structure EmailEnv where
  sendgrid_api_key : Option String
  smtp_pass : Option String
  sendgridStatus : Nat
  sendgridText : String
  smtpException : Option String

/-- The outcome of a Python call: a returned `(success, reason)` pair, or an
uncaught exception. -/
inductive PyResult where
  | ok (success : Bool) (reason : String)
  | exn (msg : String)
deriving DecidableEq, Repr

/-- The body of `_send_via_sendgrid`: missing key returns a failure pair,
otherwise the HTTP status decides the pair. -/
def send_via_sendgrid (env : EmailEnv) (_sender _recipient _subject _body_text
    _attachment_bytes _attachment_name : String) : PyResult :=
  if !truthyEnv env.sendgrid_api_key then
    .ok false "SENDGRID_API_KEY not set"
  else if env.sendgridStatus = 200 || env.sendgridStatus = 202 then
    .ok true "Sent"
  else
    .ok false ("SendGrid error " ++ toString env.sendgridStatus ++ ": " ++ env.sendgridText)

/-- The body of `_send_via_smtp` (reached only when the call supplies all six
positional arguments): missing `SMTP_PASS` returns a failure pair, an SMTP
session error propagates as an exception, otherwise `(True, "Sent")`. -/
def send_via_smtp_body (env : EmailEnv) (_sender _recipient _subject _body_text
    _attachment_bytes _attachment_name : String) : PyResult :=
  if !truthyEnv env.smtp_pass then
    .ok false "SMTP_PASS not set"
  else
    match env.smtpException with
    | some e => .exn e
    | none => .ok true "Sent"

/-- The error message Python raises for the six-parameter `_send_via_smtp`
when a call supplies only five positional arguments. -/
def smtpArityError : String :=
  "TypeError: _send_via_smtp() missing 1 required positional argument: attachment_name"

/-- Calling `_send_via_smtp` with a list of positional arguments: Python
checks the arity before the body runs. -/
def send_via_smtp_call (env : EmailEnv) (args : List String) : PyResult :=
  match args with
  | [sender, recipient, subject, body_text, attachment_bytes, attachment_name] =>
    send_via_smtp_body env sender recipient subject body_text attachment_bytes attachment_name
  | _ => .exn smtpArityError

/-- Source `send_email_with_attachment`: dispatch on `SENDGRID_API_KEY`.  The source
passes only five positional arguments to `_send_via_smtp`, omitting
`attachment_bytes`. -/
def send_email_with_attachment (env : EmailEnv) (sender recipient subject body_text
    attachment_bytes attachment_name : String) : PyResult :=
  if truthyEnv env.sendgrid_api_key then
    send_via_sendgrid env sender recipient subject body_text attachment_bytes attachment_name
  else
    send_via_smtp_call env [sender, recipient, subject, body_text, attachment_name]

/-! ## Specification-side definitions (for refinement claims) -/

/-- Modelled from the spec wording of quantity selection: among the candidate
tokens, the first one in line order whose confidence is not exceeded later
(i.e. the first of the tied-highest-confidence tokens). -/
def firstMaxConf : List WordBox → Option WordBox
  | [] => none
  | t :: ts =>
    match firstMaxConf ts with
    | none => some t
    | some m => if t.conf < m.conf then some m else some t

/-- Modelled from the spec wording: filter the line to its digit-only tokens
whose confidence meets the threshold, pick the first of the highest-confidence
ones, and return its integer value (`none` when no token qualifies). -/
def specQuantity (tokens : List WordBox) (conf_threshold : Int) : Option Int :=
  (firstMaxConf (tokens.filter fun t =>
    pyIsDigit t.txt && decide (conf_threshold ≤ t.conf))).map fun t => pyInt t.txt

/-! ## Analysis helpers and concrete inputs used by the theorems -/

/-- The `(y, x)` key of a line's first token (`(0, 0)` for an empty line,
which the grouper never produces). -/
def firstKey : List WordBox → Int × Int
  | [] => (0, 0)
  | p :: _ => (p.y, p.x)

/-- Lexicographic order on `(y, x)` keys: first-token `y`, then `x`. -/
def lexKeyLe (a b : Int × Int) : Prop :=
  a.1 < b.1 ∨ (a.1 = b.1 ∧ a.2 ≤ b.2)

/-- The quantity-state transition of the extraction loop, on the
`(qty, qty_conf)` pair alone. -/
def stepMax (s : Option Int × Int) (t : WordBox) : Option Int × Int :=
  if s.2 < t.conf then (some (pyInt t.txt), t.conf) else s

/-- Keep the earlier token unless the later one has strictly higher
confidence. -/
def maxStep (b t : WordBox) : WordBox :=
  if b.conf < t.conf then t else b

/-- The pandas cell selected for column `c` in row `r` of frame `df`. -/
def cellAt (df : DF) (r : List Cell) (c : String) : Cell :=
  r.getD (df.cols.findIdx (· = c)) Cell.null

/-- The text of a CSV output before its first newline (its header line). -/
def headerLine (s : String) : String :=
  String.mk (s.toList.takeWhile fun c => c != '\n')

/-- The tied-confidence line of the C1 example: numeric tokens
`("12", 60), ("7", 85), ("9", 85)`. -/
def exLineC1 : List WordBox :=
  [⟨0, 0, "12", 60⟩, ⟨0, 5, "7", 85⟩, ⟨0, 9, "9", 85⟩]

/-- A two-row word-box set whose rows are more than `y_tol = 12` apart. -/
def exPtsC2 : List WordBox :=
  [⟨30, 0, "Rice", 88⟩, ⟨0, 0, "Broccoli", 90⟩, ⟨0, 60, "4", 95⟩]

/-- The aggregation example of C3: Rice 5 and 3, Broccoli null and 2. -/
def exRecsC3 : List RawRecord :=
  [⟨some "Rice", .num 5⟩, ⟨some "Rice", .num 3⟩,
   ⟨some "Broccoli", .null⟩, ⟨some "Broccoli", .num 2⟩]

/-- An item all of whose quantities coerce to NaN. -/
def exRecsC10 : List RawRecord :=
  [⟨some "Broccoli", .null⟩, ⟨some "Broccoli", .nonnum "n/a"⟩]

/-- An AggregatedRow frame as produced by `summarize_by_item`: columns
`item` and `total_quantity`. -/
def exAggDF : DF :=
  ⟨["item", "total_quantity"], [[.s "Rice", .f 8]]⟩

/-- An environment with no SendGrid key configured (SMTP branch). -/
def exEnvC8 : EmailEnv :=
  ⟨none, some "hunter2", 200, "", none⟩

/-- A line with two cleanable alphabetic tokens and no numeric token. -/
def exLineC9 : List WordBox :=
  [⟨0, 0, "Ro@sted!", 90⟩, ⟨0, 5, "Broc-coli", 91⟩]

/-- A raw Record frame: columns `item` and `quantity`. -/
def exRecDF : DF :=
  ⟨["item", "quantity"], [[.s "Rice", .i 5], [.s "Broccoli", Cell.null]]⟩

/-! ## Helper lemmas -/

/-- Unfolding of the sanitizer on a present integer. -/
theorem sanitize_some (iv min_q max_q : Int) :
    sanitize_quantity_range (some iv) min_q max_q =
      if iv < min_q ∨ max_q < iv then none else some iv := rfl

/-! ## Theorems -/

/-- Claim C5: the Range Sanitizer returns an in-range integer quantity
unchanged and nulls everything else; null input returns null; the boundary
examples `sanitize(0,0,100) = 0`, `sanitize(100,0,100) = 100`,
`sanitize(101,0,100) = null` hold. -/
theorem claim_C5_range_sanitizer :
    (∀ min_q max_q : Int, sanitize_quantity_range none min_q max_q = none)
    ∧ (∀ q min_q max_q : Int, min_q ≤ q → q ≤ max_q →
        sanitize_quantity_range (some q) min_q max_q = some q)
    ∧ (∀ q min_q max_q : Int, (q < min_q ∨ max_q < q) →
        sanitize_quantity_range (some q) min_q max_q = none)
    ∧ sanitize_quantity_range (some 0) 0 100 = some 0
    ∧ sanitize_quantity_range (some 100) 0 100 = some 100
    ∧ sanitize_quantity_range (some 101) 0 100 = none := by
  refine ⟨fun _ _ => rfl, ?_, ?_, by decide, by decide, by decide⟩
  · intro q min_q max_q h1 h2
    rw [sanitize_some, if_neg (by omega)]
  · intro q min_q max_q h
    rw [sanitize_some, if_pos (by omega)]

/-- Claim C5 witness: the in-range and out-of-range clauses applied at
concrete boundary inputs. -/
theorem claim_C5_range_sanitizer_witness :
    ((0 : Int) ≤ 100 ∧ sanitize_quantity_range (some 100) 0 100 = some 100)
    ∧ ((100 : Int) < 101 ∧ sanitize_quantity_range (some 101) 0 100 = none) :=
  ⟨⟨by decide, claim_C5_range_sanitizer.2.1 100 0 100 (by decide) (by decide)⟩,
   ⟨by decide, claim_C5_range_sanitizer.2.2.1 101 0 100 (Or.inr (by decide))⟩⟩

/-- Claim C6: the Range Sanitizer is idempotent — sanitizing twice equals
sanitizing once, for every quantity and range. -/
theorem claim_C6_sanitize_idempotent :
    ∀ (q : Option Int) (min_q max_q : Int),
      sanitize_quantity_range (sanitize_quantity_range q min_q max_q) min_q max_q =
        sanitize_quantity_range q min_q max_q := by
  intro q min_q max_q
  match q with
  | none => rfl
  | some iv =>
    rw [sanitize_some]
    by_cases h : iv < min_q ∨ max_q < iv
    · rw [if_pos h]
      rfl
    · rw [if_neg h, sanitize_some, if_neg h]

/-- Claim C8: the email sender dispatches on the configured credential, but
whenever the SendGrid key is absent the SMTP branch calls `_send_via_smtp`
with only five of its six positional arguments, so it raises a `TypeError`
instead of returning a `(success, reason)` pair; the provider branch does
return such a pair. -/
theorem claim_C8_email_smtp_branch_raises :
    ∀ (env : EmailEnv) (sender recipient subject body_text attachment_bytes
        attachment_name : String),
      (truthyEnv env.sendgrid_api_key = false →
        send_email_with_attachment env sender recipient subject body_text
          attachment_bytes attachment_name = .exn smtpArityError)
      ∧ (truthyEnv env.sendgrid_api_key = true →
        ∃ ok reason, send_email_with_attachment env sender recipient subject body_text
          attachment_bytes attachment_name = .ok ok reason) := by
  intro env sender recipient subject body_text attachment_bytes attachment_name
  constructor
  · intro h
    simp [send_email_with_attachment, h, send_via_smtp_call]
  · intro h
    simp only [send_email_with_attachment, h, if_true, send_via_sendgrid, h,
      Bool.not_true, Bool.false_eq_true, if_false]
    by_cases hs : (env.sendgridStatus = 200 || env.sendgridStatus = 202) = true
    · rw [if_pos hs]
      exact ⟨true, "Sent", rfl⟩
    · rw [if_neg hs]
      exact ⟨false, _, rfl⟩

/-- Claim C8 witness: with no SendGrid key configured, a concrete call
raises the arity `TypeError`. -/
theorem claim_C8_email_smtp_branch_raises_witness :
    truthyEnv exEnvC8.sendgrid_api_key = false
    ∧ send_email_with_attachment exEnvC8 "kitchen@smc.edu" "dining@smc.edu"
        "Prep log" "attached" "item,quantity\n" "report.csv" = .exn smtpArityError :=
  ⟨by decide,
   (claim_C8_email_smtp_branch_raises exEnvC8 "kitchen@smc.edu" "dining@smc.edu"
      "Prep log" "attached" "item,quantity\n" "report.csv").1 (by decide)⟩

/-- The grouping walk never loses or duplicates a box: its flattened output
is the finished lines, the current line and the remaining input. -/
theorem groupGo_flatten (y_tol : Int) :
    ∀ (ts : List WordBox) (lines : List (List WordBox)) (cur : List WordBox)
      (prevY : Option Int),
      (groupGo y_tol ts lines cur prevY).flatten = lines.flatten ++ (cur ++ ts) := by
  intro ts
  induction ts with
  | nil =>
    intro lines cur prevY
    by_cases h : cur = [] <;> simp [groupGo, h]
  | cons p rest ih =>
    intro lines cur prevY
    match prevY with
    | none => simp [groupGo, ih]
    | some py =>
      by_cases hy : |p.y - py| ≤ y_tol
      · simp [groupGo, hy, ih]
      · by_cases hc : cur = [] <;> simp [groupGo, hy, hc, ih]

/-- The grouping walk emits no empty line. -/
theorem groupGo_ne_nil (y_tol : Int) :
    ∀ (ts : List WordBox) (lines : List (List WordBox)) (cur : List WordBox)
      (prevY : Option Int),
      (∀ l ∈ lines, l ≠ []) →
      ∀ l ∈ groupGo y_tol ts lines cur prevY, l ≠ [] := by
  intro ts
  induction ts with
  | nil =>
    intro lines cur prevY hl l hmem
    by_cases h : cur = []
    · simp only [groupGo, if_pos h] at hmem
      exact hl l hmem
    · simp only [groupGo, if_neg h, List.mem_append, List.mem_singleton] at hmem
      rcases hmem with hm | hm
      · exact hl l hm
      · simpa [hm] using h
  | cons p rest ih =>
    intro lines cur prevY hl
    match prevY with
    | none => exact ih lines (cur ++ [p]) (some p.y) hl
    | some py =>
      by_cases hy : |p.y - py| ≤ y_tol
      · simpa only [groupGo, if_pos hy] using ih lines (cur ++ [p]) (some p.y) hl
      · simp only [groupGo, if_neg hy]
        refine ih _ [p] (some p.y) ?_
        by_cases hc : cur = []
        · simpa [hc] using hl
        · intro l hm
          rw [if_neg hc] at hm
          rcases List.mem_append.mp hm with hm | hm
          · exact hl l hm
          · simpa [List.mem_singleton.mp hm] using hc

/-- If the concatenation of a list of non-empty lines is pairwise ordered,
the lines are pairwise ordered on their first tokens' `(y, x)` keys. -/
theorem pairwise_firstKey_of_flatten :
    ∀ L : List (List WordBox), (∀ l ∈ L, l ≠ []) →
      L.flatten.Pairwise lexYX →
      L.Pairwise fun l₁ l₂ => lexKeyLe (firstKey l₁) (firstKey l₂) := by
  intro L
  induction L with
  | nil => intro _ _; exact List.Pairwise.nil
  | cons l L ih =>
    intro hne hp
    rw [List.flatten_cons, List.pairwise_append] at hp
    refine List.Pairwise.cons ?_ (ih (fun x hx => hne x (List.mem_cons_of_mem _ hx)) hp.2.1)
    intro l' hl'
    have hlne : l ≠ [] := hne l (List.mem_cons_self _ _)
    have hl'ne : l' ≠ [] := hne l' (List.mem_cons_of_mem _ hl')
    match l, hlne with
    | a :: _, _ =>
      match l', hl'ne with
      | b :: _, _ =>
        have hb : b ∈ L.flatten :=
          List.mem_flatten.mpr ⟨b :: _, hl', List.mem_cons_self _ _⟩
        have := hp.2.2 a (List.mem_cons_self _ _) b hb
        simpa [firstKey, lexKeyLe, lexYX] using this

/-- Claim C2: for every word-box set and tolerance, the grouper's lines
concatenate to a permutation of the input (each input box lands in exactly
one line, none lost, none duplicated), the lines are non-empty, and they are
ordered by first-token `y` then `x`. -/
theorem claim_C2_line_grouper_partition :
    ∀ (pts : List WordBox) (y_tol : Int),
      (groupLines pts y_tol).flatten.Perm pts
      ∧ (Multiset.ofList (groupLines pts y_tol).flatten = Multiset.ofList pts)
      ∧ (∀ l ∈ groupLines pts y_tol, l ≠ [])
      ∧ (groupLines pts y_tol).Pairwise
          (fun l₁ l₂ => lexKeyLe (firstKey l₁) (firstKey l₂)) := by
  intro pts y_tol
  have hflat : (groupLines pts y_tol).flatten = sortPts pts := by
    simpa using groupGo_flatten y_tol (sortPts pts) [] [] none
  have hperm : (groupLines pts y_tol).flatten.Perm pts := by
    rw [hflat]
    exact List.perm_insertionSort lexYX pts
  have hne : ∀ l ∈ groupLines pts y_tol, l ≠ [] :=
    groupGo_ne_nil y_tol (sortPts pts) [] [] none (by simp)
  refine ⟨hperm, Multiset.coe_eq_coe.mpr hperm, hne, ?_⟩
  refine pairwise_firstKey_of_flatten _ hne ?_
  rw [hflat]
  exact List.sorted_insertionSort lexYX pts

/-- Claim C2 witness: on a concrete three-box input the flattened grouping is
a permutation of the input and a concrete output line is non-empty. -/
theorem claim_C2_line_grouper_partition_witness :
    (groupLines exPtsC2 12).flatten.Perm exPtsC2
    ∧ ([⟨0, 0, "Broccoli", 90⟩, ⟨0, 60, "4", 95⟩] : List WordBox) ≠ [] :=
  ⟨(claim_C2_line_grouper_partition exPtsC2 12).1,
   (claim_C2_line_grouper_partition exPtsC2 12).2.2.1 _ (by decide)⟩

/-- The quantity side of the extraction loop is the fold of `stepMax` over
the digit-only tokens meeting the threshold. -/
theorem extractGo_snd (conf_threshold : Int) :
    ∀ (ts : List WordBox) (qty : Option Int) (qc : Int) (words : List (List Char)),
      (extractGo conf_threshold ts qty qc words).2 =
        ((ts.filter fun t => pyIsDigit t.txt && decide (conf_threshold ≤ t.conf)).foldl
          stepMax (qty, qc)).1 := by
  intro ts
  induction ts with
  | nil => intro qty qc words; rfl
  | cons t ts ih =>
    intro qty qc words
    by_cases hd : pyIsDigit t.txt
    · by_cases hth : conf_threshold ≤ t.conf
      · have hfil : (t :: ts).filter (fun t => pyIsDigit t.txt && decide (conf_threshold ≤ t.conf))
            = t :: ts.filter (fun t => pyIsDigit t.txt && decide (conf_threshold ≤ t.conf)) := by
          simp [List.filter_cons, hd, hth]
        by_cases hqc : qc < t.conf
        · rw [show extractGo conf_threshold (t :: ts) qty qc words
              = extractGo conf_threshold ts (some (pyInt t.txt)) t.conf words from by
            simp only [extractGo, if_pos hd, if_pos (And.intro hth hqc)]]
          rw [ih, hfil, List.foldl_cons,
            show stepMax (qty, qc) t = (some (pyInt t.txt), t.conf) from by
              simp [stepMax, hqc]]
        · rw [show extractGo conf_threshold (t :: ts) qty qc words
              = extractGo conf_threshold ts qty qc words from by
            simp only [extractGo, if_pos hd, if_neg (fun h => hqc (And.right h))]]
          rw [ih, hfil, List.foldl_cons,
            show stepMax (qty, qc) t = (qty, qc) from by simp [stepMax, hqc]]
      · have hfil : (t :: ts).filter (fun t => pyIsDigit t.txt && decide (conf_threshold ≤ t.conf))
            = ts.filter (fun t => pyIsDigit t.txt && decide (conf_threshold ≤ t.conf)) := by
          simp [List.filter_cons, hth]
        rw [show extractGo conf_threshold (t :: ts) qty qc words
            = extractGo conf_threshold ts qty qc words from by
          simp only [extractGo, if_pos hd, if_neg (fun h => hth (And.left h))]]
        rw [ih, hfil]
    · have hfil : (t :: ts).filter (fun t => pyIsDigit t.txt && decide (conf_threshold ≤ t.conf))
          = ts.filter (fun t => pyIsDigit t.txt && decide (conf_threshold ≤ t.conf)) := by
        simp [List.filter_cons, hd]
      by_cases ha : hasAlphaStr t.txt
      · by_cases hlen : ITEM_TOKEN_MIN_LEN ≤ (cleanToken t.txt).length
        · rw [show extractGo conf_threshold (t :: ts) qty qc words
              = extractGo conf_threshold ts qty qc (words ++ [cleanToken t.txt]) from by
            simp only [extractGo, if_neg hd, if_pos ha, if_pos hlen]]
          rw [ih, hfil]
        · rw [show extractGo conf_threshold (t :: ts) qty qc words
              = extractGo conf_threshold ts qty qc words from by
            simp only [extractGo, if_neg hd, if_pos ha, if_neg hlen]]
          rw [ih, hfil]
      · rw [show extractGo conf_threshold (t :: ts) qty qc words
            = extractGo conf_threshold ts qty qc words from by
          simp only [extractGo, if_neg hd, if_neg ha]]
        rw [ih, hfil]

/-- Folding `maxStep` from an initial token yields that token unless the rest
of the list holds a strictly more confident one (the earliest such). -/
theorem foldl_maxStep_firstMax :
    ∀ (cs : List WordBox) (b : WordBox),
      cs.foldl maxStep b =
        match firstMaxConf cs with
        | none => b
        | some m => if b.conf < m.conf then m else b := by
  intro cs
  induction cs with
  | nil => intro b; rfl
  | cons t ts ih =>
    intro b
    show ts.foldl maxStep (maxStep b t) = _
    rw [ih (maxStep b t)]
    rcases h : firstMaxConf ts with _ | m
    · simp only [firstMaxConf, h, maxStep]
    · simp only [firstMaxConf, h, maxStep]
      by_cases htm : t.conf < m.conf <;> by_cases hbt : b.conf < t.conf <;>
        simp only [htm, hbt, if_true, if_false, ite_true, ite_false] <;>
        split_ifs <;> first | rfl | omega

/-- Once a quantity has been selected, the `(qty, qty_conf)` pair tracks the
first-of-maximum token of the remaining candidates. -/
theorem foldl_stepMax_track :
    ∀ (cs : List WordBox) (b : WordBox),
      cs.foldl stepMax (some (pyInt b.txt), b.conf) =
        (some (pyInt (cs.foldl maxStep b).txt), (cs.foldl maxStep b).conf) := by
  intro cs
  induction cs with
  | nil => intro b; rfl
  | cons t ts ih =>
    intro b
    show ts.foldl stepMax (stepMax (some (pyInt b.txt), b.conf) t) = _
    by_cases h : b.conf < t.conf
    · rw [show stepMax (some (pyInt b.txt), b.conf) t = (some (pyInt t.txt), t.conf) from by
        simp [stepMax, h]]
      rw [ih t, List.foldl_cons, show maxStep b t = t from by simp [maxStep, h]]
    · rw [show stepMax (some (pyInt b.txt), b.conf) t = (some (pyInt b.txt), b.conf) from by
        simp [stepMax, h]]
      rw [ih b, List.foldl_cons, show maxStep b t = b from by simp [maxStep, h]]

/-- Folding the quantity state from `(None, -1)` over candidates of positive
confidence selects the first candidate of maximal confidence. -/
theorem foldl_stepMax_start :
    ∀ cs : List WordBox, (∀ c ∈ cs, -1 < c.conf) →
      (cs.foldl stepMax ((none : Option Int), -1)).1 =
        (firstMaxConf cs).map fun t => pyInt t.txt := by
  intro cs hc
  match cs with
  | [] => rfl
  | c :: cs =>
    have h0 : (-1 : Int) < c.conf := hc c (List.mem_cons_self _ _)
    show (cs.foldl stepMax (stepMax (none, -1) c)).1 = _
    rw [show stepMax ((none : Option Int), -1) c = (some (pyInt c.txt), c.conf) from by
      simp [stepMax, h0]]
    rw [foldl_stepMax_track cs c, foldl_maxStep_firstMax cs c]
    rcases h : firstMaxConf cs with _ | m
    · simp only [firstMaxConf, h]
      rfl
    · simp only [firstMaxConf, h]
      by_cases hcm : c.conf < m.conf <;>
        simp only [hcm, if_true, if_false, ite_true, ite_false] <;> rfl

/-- Claim C1: for every line and every configured threshold (0–100, hence
non-negative), the extracted quantity is the value of the first digit-only
token of tied-highest confidence among those at or above the threshold, and
null when none qualifies; on the example line with numeric tokens
`(12, 60), (7, 85), (9, 85)` and threshold 80 it is 7. -/
theorem claim_C1_quantity_selection :
    (∀ (tokens : List WordBox) (conf_threshold : Int), 0 ≤ conf_threshold →
      (extract_line_item_and_qty tokens conf_threshold).2 =
        specQuantity tokens conf_threshold)
    ∧ (extract_line_item_and_qty exLineC1 80).2 = some 7 := by
  refine ⟨?_, by decide⟩
  intro tokens conf_threshold hth
  show (extractGo conf_threshold tokens none (-1) []).2 = _
  rw [extractGo_snd, foldl_stepMax_start]
  · rfl
  · intro c hcmem
    have hmem := List.mem_filter.mp hcmem
    have hc : conf_threshold ≤ c.conf := by
      have := hmem.2
      simp only [Bool.and_eq_true, decide_eq_true_eq] at this
      exact this.2
    omega

/-- Claim C1 witness: the refinement applied at the example line and the
default threshold 80. -/
theorem claim_C1_quantity_selection_witness :
    (0 : Int) ≤ 80
    ∧ (extract_line_item_and_qty exLineC1 80).2 = specQuantity exLineC1 80 :=
  ⟨by decide, claim_C1_quantity_selection.1 exLineC1 80 (by decide)⟩

/-- A string is a group key exactly when some input row carries it as its
(non-null) item. -/
theorem mem_groupKeys {rs : List RawRecord} {k : String} :
    k ∈ groupKeys rs ↔ some k ∈ rs.map (·.item) := by
  unfold groupKeys
  rw [(List.perm_insertionSort strLe _).mem_iff, List.mem_dedup]
  constructor
  · intro h
    rcases List.mem_filterMap.mp h with ⟨r, hr, he⟩
    exact List.mem_map.mpr ⟨r, hr, he⟩
  · intro h
    rcases List.mem_map.mp h with ⟨r, hr, he⟩
    exact List.mem_filterMap.mpr ⟨r, hr, he⟩

/-- The group keys are distinct. -/
theorem nodup_groupKeys (rs : List RawRecord) : (groupKeys rs).Nodup :=
  ((List.perm_insertionSort strLe _).nodup_iff).mpr (List.nodup_dedup _)

/-- Claim C3: the aggregator emits exactly one row per distinct non-null
item, each carrying that group's NaN-excluded sum, sorted descending by
total; null items contribute no group; the Rice/Broccoli example aggregates
to `[(Rice, 8), (Broccoli, 2)]` in that order. -/
theorem claim_C3_aggregator :
    (∀ rs : List RawRecord,
      ((summarize_by_item rs).map Prod.fst).Nodup
      ∧ (∀ k : String,
          (∃ t, (k, t) ∈ summarize_by_item rs) ↔ some k ∈ rs.map (·.item))
      ∧ (∀ p ∈ summarize_by_item rs, p.2 = groupTotal rs p.1)
      ∧ (summarize_by_item rs).Sorted byTotalDesc)
    ∧ summarize_by_item exRecsC3 = [("Rice", 8), ("Broccoli", 2)] := by
  refine ⟨?_, by decide⟩
  intro rs
  have hperm :=
    List.perm_insertionSort byTotalDesc ((groupKeys rs).map fun k => (k, groupTotal rs k))
  refine ⟨?_, ?_, ?_, List.sorted_insertionSort byTotalDesc _⟩
  · refine ((hperm.map Prod.fst).nodup_iff).mpr ?_
    rw [List.map_map,
      show (Prod.fst ∘ fun k => (k, groupTotal rs k)) = id from rfl, List.map_id]
    exact nodup_groupKeys rs
  · intro k
    constructor
    · rintro ⟨t, ht⟩
      rcases List.mem_map.mp (hperm.mem_iff.mp ht) with ⟨k', hk', he⟩
      injection he with h1 _
      subst h1
      exact mem_groupKeys.mp hk'
    · intro h
      exact ⟨groupTotal rs k,
        hperm.mem_iff.mpr (List.mem_map.mpr ⟨k, mem_groupKeys.mpr h, rfl⟩)⟩
  · intro p hp
    rcases List.mem_map.mp (hperm.mem_iff.mp hp) with ⟨k', _, he⟩
    cases he
    rfl

/-- Claim C3 witness: on the example records, the row `(Rice, 8)` is in the
output and its total equals the Rice group's sum. -/
theorem claim_C3_aggregator_witness :
    (("Rice", (8 : Int)) ∈ summarize_by_item exRecsC3)
    ∧ (("Rice", (8 : Int)).2 = groupTotal exRecsC3 "Rice") :=
  ⟨by decide, (claim_C3_aggregator.1 exRecsC3).2.2.1 ("Rice", 8) (by decide)⟩

/-- Claim C10: an item whose every quantity coerces to NaN (null or
non-numeric) still yields an output row, with total 0. -/
theorem claim_C10_all_nan_group :
    ∀ (rs : List RawRecord) (k : String),
      some k ∈ rs.map (·.item) →
      (∀ r ∈ rs, r.item = some k → coerceQty r.quantity = none) →
      (k, 0) ∈ summarize_by_item rs := by
  intro rs k hmem hnan
  have hk : k ∈ groupKeys rs := mem_groupKeys.mpr hmem
  have htot : groupTotal rs k = 0 := by
    unfold groupTotal pandasSum
    have hnil :
        ((rs.filter fun r => r.item = some k).map (·.quantity)).filterMap coerceQty = [] := by
      rw [List.filterMap_eq_nil_iff]
      intro q hq
      rcases List.mem_map.mp hq with ⟨r, hr, he⟩
      have hrr := List.mem_filter.mp hr
      have hitem : r.item = some k := by simpa using hrr.2
      rw [← he]
      exact hnan r hrr.1 hitem
    rw [hnil]
    rfl
  have hin : (k, groupTotal rs k) ∈ (groupKeys rs).map fun k => (k, groupTotal rs k) :=
    List.mem_map.mpr ⟨k, hk, rfl⟩
  rw [htot] at hin
  exact (List.perm_insertionSort byTotalDesc _).mem_iff.mpr hin

/-- Claim C10 witness: a Broccoli group with only null and non-numeric
quantities still appears, with total 0. -/
theorem claim_C10_all_nan_group_witness :
    (some "Broccoli" ∈ exRecsC10.map (·.item))
    ∧ ("Broccoli", (0 : Int)) ∈ summarize_by_item exRecsC10 :=
  ⟨by decide, claim_C10_all_nan_group exRecsC10 "Broccoli" (by decide) (by decide)⟩

/-- Letters belong to the kept character class of the cleaning substitution. -/
theorem alpha_allowed (c : Char) (h : isAsciiAlpha c = true) : allowedChar c = true := by
  unfold allowedChar
  unfold isAsciiAlpha at h
  simp [h]

/-- Letters are not stripped whitespace. -/
theorem alpha_not_pyWs (c : Char) (h : isAsciiAlpha c = true) : pyWs c = false := by
  cases hw : pyWs c
  · rfl
  · exfalso
    unfold pyWs at hw
    simp only [Bool.or_eq_true, decide_eq_true_eq] at hw
    rcases hw with ((((h1 | h1) | h1) | h1) | h1) | h1 <;> subst h1 <;>
      exact absurd h (by decide)

/-- The cleaning substitution neither creates nor destroys letters. -/
theorem any_alpha_collapse :
    ∀ (b : Bool) (l : List Char),
      (collapseSub b l).any isAsciiAlpha = l.any isAsciiAlpha := by
  intro b l
  induction l generalizing b with
  | nil => rfl
  | cons c cs ih =>
    by_cases hall : allowedChar c
    · simp only [collapseSub, if_pos hall, List.any_cons, ih]
    · have hna : isAsciiAlpha c = false := by
        cases ha : isAsciiAlpha c
        · rfl
        · exact absurd (alpha_allowed c ha) hall
      have hsp : isAsciiAlpha ' ' = false := by decide
      cases b <;> simp [collapseSub, hall, ih, hna, hsp]

/-- A member that is not leading whitespace survives `dropWhile`. -/
theorem mem_dropWhile_not_ws {c : Char} {l : List Char}
    (hc : c ∈ l) (hw : pyWs c = false) : c ∈ l.dropWhile pyWs := by
  rw [← List.takeWhile_append_dropWhile pyWs l] at hc
  rcases List.mem_append.mp hc with h | h
  · exact absurd (List.mem_takeWhile_imp h) (by simp [hw])
  · exact h

/-- Stripping whitespace preserves the presence of a letter. -/
theorem any_alpha_strip {l : List Char} (h : l.any isAsciiAlpha = true) :
    (stripChars l).any isAsciiAlpha = true := by
  rcases List.any_eq_true.mp h with ⟨c, hc, ha⟩
  have hw := alpha_not_pyWs c ha
  have h1 : c ∈ l.dropWhile pyWs := mem_dropWhile_not_ws hc hw
  have h2 : c ∈ (l.dropWhile pyWs).reverse := List.mem_reverse.mpr h1
  have h3 := mem_dropWhile_not_ws h2 hw
  exact List.any_eq_true.mpr ⟨c, List.mem_reverse.mpr h3, ha⟩

/-- Joining words preserves the presence of a letter in any word. -/
theorem any_alpha_join :
    ∀ (ws : List (List Char)) (w : List Char), w ∈ ws →
      w.any isAsciiAlpha = true → (joinWords ws).any isAsciiAlpha = true := by
  intro ws
  induction ws with
  | nil => intro w hw; exact absurd hw (List.not_mem_nil w)
  | cons w' ws ih =>
    intro w hw ha
    cases ws with
    | nil =>
      have heq : w = w' := by simpa using hw
      subst heq
      simpa [joinWords] using ha
    | cons x xs =>
      rcases List.mem_cons.mp hw with h | h
      · subst h
        simp [joinWords, List.any_append, ha]
      · simp [joinWords, List.any_append, ih w h ha]

/-- Any item string produced by the extraction loop from alphabetic words
contains a letter and is non-empty. -/
theorem extractGo_item_alpha (conf_threshold : Int) :
    ∀ (ts : List WordBox) (qty : Option Int) (qc : Int) (words : List (List Char)),
      (∀ w ∈ words, w.any isAsciiAlpha = true) →
      ∀ s : String, (extractGo conf_threshold ts qty qc words).1 = some s →
        hasAlphaStr s = true ∧ s ≠ "" := by
  intro ts
  induction ts with
  | nil =>
    intro qty qc words hw s hs
    by_cases hj : stripChars (joinWords words) = []
    · rw [show (extractGo conf_threshold [] qty qc words).1 = none from by
        simp [extractGo, hj]] at hs
      exact absurd hs (by simp)
    · rw [show (extractGo conf_threshold [] qty qc words).1 =
          some (String.mk (stripChars (joinWords words))) from by
        simp [extractGo, hj]] at hs
      injection hs with hs
      subst hs
      constructor
      · cases words with
        | nil => exact absurd rfl hj
        | cons w ws =>
          have hwa : w.any isAsciiAlpha = true := hw w (List.mem_cons_self _ _)
          exact any_alpha_strip (any_alpha_join (w :: ws) w (List.mem_cons_self _ _) hwa)
      · intro hemp
        exact hj (by simpa using congrArg String.toList hemp)
  | cons t ts ih =>
    intro qty qc words hw s hs
    by_cases hd : pyIsDigit t.txt
    · by_cases hcond : conf_threshold ≤ t.conf ∧ qc < t.conf
      · rw [show extractGo conf_threshold (t :: ts) qty qc words
            = extractGo conf_threshold ts (some (pyInt t.txt)) t.conf words from by
          simp only [extractGo, if_pos hd, if_pos hcond]] at hs
        exact ih _ _ _ hw s hs
      · rw [show extractGo conf_threshold (t :: ts) qty qc words
            = extractGo conf_threshold ts qty qc words from by
          simp only [extractGo, if_pos hd, if_neg hcond]] at hs
        exact ih _ _ _ hw s hs
    · by_cases ha : hasAlphaStr t.txt
      · by_cases hlen : ITEM_TOKEN_MIN_LEN ≤ (cleanToken t.txt).length
        · rw [show extractGo conf_threshold (t :: ts) qty qc words
              = extractGo conf_threshold ts qty qc (words ++ [cleanToken t.txt]) from by
            simp only [extractGo, if_neg hd, if_pos ha, if_pos hlen]] at hs
          refine ih _ _ _ ?_ s hs
          intro w hwmem
          rcases List.mem_append.mp hwmem with h | h
          · exact hw w h
          · rw [List.mem_singleton.mp h]
            exact any_alpha_strip (by rw [any_alpha_collapse]; exact ha)
        · rw [show extractGo conf_threshold (t :: ts) qty qc words
              = extractGo conf_threshold ts qty qc words from by
            simp only [extractGo, if_neg hd, if_pos ha, if_neg hlen]] at hs
          exact ih _ _ _ hw s hs
      · rw [show extractGo conf_threshold (t :: ts) qty qc words
            = extractGo conf_threshold ts qty qc words from by
          simp only [extractGo, if_neg hd, if_neg ha]] at hs
        exact ih _ _ _ hw s hs

/-- Every row assembled by `extract_items_quantities` either carries a
non-empty, letter-containing item or a present quantity. -/
theorem buildRows_shape (lines : List (List WordBox)) (conf_threshold : Int) :
    ∀ r ∈ buildRows lines conf_threshold,
      (∃ s, r.item = some s ∧ hasAlphaStr s = true ∧ s ≠ "")
      ∨ (r.item = none ∧ r.quantity ≠ none) := by
  intro r hr
  rcases List.mem_filterMap.mp hr with ⟨line, _, he⟩
  by_cases hnone : (extract_line_item_and_qty line conf_threshold).1 = none
      ∧ (extract_line_item_and_qty line conf_threshold).2 = none
  · rw [if_pos hnone] at he
    exact absurd he (by simp)
  · rw [if_neg hnone] at he
    injection he with he
    subst he
    rcases hi : (extract_line_item_and_qty line conf_threshold).1 with _ | s
    · exact Or.inr ⟨rfl, fun h => hnone ⟨hi, h⟩⟩
    · have hsa := extractGo_item_alpha conf_threshold line none (-1) [] (by simp) s hi
      exact Or.inl ⟨s, rfl, hsa.1, hsa.2⟩

/-- Claim C9: a non-null extracted item always contains a letter, so the
post-filter never discards a record with a non-null item (it removes
nothing), and every output record has a letter-containing non-null item or a
non-null quantity. -/
theorem claim_C9_item_alpha_invariant :
    (∀ (tokens : List WordBox) (conf_threshold : Int) (s : String),
      (extract_line_item_and_qty tokens conf_threshold).1 = some s →
        hasAlphaStr s = true)
    ∧ (∀ (lines : List (List WordBox)) (conf_threshold : Int),
      extract_items_quantities lines conf_threshold = buildRows lines conf_threshold)
    ∧ (∀ (lines : List (List WordBox)) (conf_threshold : Int),
      ∀ r ∈ extract_items_quantities lines conf_threshold,
        (∃ s, r.item = some s ∧ hasAlphaStr s = true) ∨ r.quantity ≠ none) := by
  have hkeep : ∀ (lines : List (List WordBox)) (conf_threshold : Int),
      ∀ r ∈ buildRows lines conf_threshold, keepRecord r = true := by
    intro lines conf_threshold r hr
    rcases buildRows_shape lines conf_threshold r hr with ⟨s, hi, ha, hne⟩ | ⟨hi, hq⟩
    · have hie : s.isEmpty = false := by
        cases hemp : s.isEmpty
        · rfl
        · exact absurd ((String.isEmpty_iff s).mp hemp) hne
      simp [keepRecord, hi, ha, hie]
    · simp [keepRecord, hi, Option.isSome_iff_ne_none, hq]
  refine ⟨?_, ?_, ?_⟩
  · intro tokens conf_threshold s hs
    exact (extractGo_item_alpha conf_threshold tokens none (-1) [] (by simp) s hs).1
  · intro lines conf_threshold
    exact List.filter_eq_self.mpr (hkeep lines conf_threshold)
  · intro lines conf_threshold r hr
    have hr' := List.mem_of_mem_filter hr
    rcases buildRows_shape lines conf_threshold r hr' with ⟨s, hi, ha, _⟩ | ⟨_, hq⟩
    · exact Or.inl ⟨s, hi, ha⟩
    · exact Or.inr hq

/-- Claim C9 witness: the invariant applied to a concrete line whose item is
`Ro sted Broc-coli`. -/
theorem claim_C9_item_alpha_invariant_witness :
    ((extract_line_item_and_qty exLineC9 80).1 = some "Ro sted Broc-coli")
    ∧ hasAlphaStr "Ro sted Broc-coli" = true :=
  ⟨by decide, claim_C9_item_alpha_invariant.1 exLineC9 80 "Ro sted Broc-coli" (by decide)⟩

/-- Claim C7 counterexample: exporting an AggregatedRow frame (columns
`item`, `total_quantity`) does not yield the claimed `item,quantity` header —
the frame is passed through with its own columns. -/
theorem claim_C7_csv_counterexample :
    to_csv_bytes exAggDF = "item,total_quantity\nRice,8.0\n"
    ∧ headerLine (to_csv_bytes exAggDF) = "item,total_quantity"
    ∧ headerLine (to_csv_bytes exAggDF) ≠ "item,quantity" :=
  ⟨by decide, by decide, by decide⟩

/-- Claim C7 (amended): for every frame that has both an `item` and a
`quantity` column (raw Record exports), the CSV consists of the header line
`item,quantity` followed by exactly one line per input row, each holding the
rendered `item` cell, a comma and the rendered `quantity` cell, where a null
renders as a blank field; frames lacking either column (AggregatedRow
exports) are serialized with their own columns unchanged. -/
theorem claim_C7_csv_export_amended :
    ∀ df : DF, "item" ∈ df.cols → "quantity" ∈ df.cols →
      to_csv_bytes df =
        "item,quantity\n" ++ String.join (df.rows.map fun r =>
          renderCell (cellAt df r "item") ++ "," ++ renderCell (cellAt df r "quantity") ++ "\n")
      ∧ headerLine (to_csv_bytes df) = "item,quantity"
      ∧ (selectCols df ["item", "quantity"]).cols = ["item", "quantity"]
      ∧ (selectCols df ["item", "quantity"]).rows.length = df.rows.length
      ∧ renderCell Cell.null = "" := by
  intro df h1 h2
  have hif : to_csv_bytes df = renderCsv (selectCols df ["item", "quantity"]) := by
    simp [to_csv_bytes, h1, h2]
  have hmain : to_csv_bytes df =
      "item,quantity\n" ++ String.join (df.rows.map fun r =>
        renderCell (cellAt df r "item") ++ "," ++ renderCell (cellAt df r "quantity") ++ "\n") := by
    rw [hif]
    have hrows : (selectCols df ["item", "quantity"]).rows.map (fun r => csvLine r ++ "\n")
        = df.rows.map (fun r =>
            renderCell (cellAt df r "item") ++ "," ++ renderCell (cellAt df r "quantity") ++ "\n") := by
      unfold selectCols
      rw [List.map_map]
      exact List.map_congr_left fun r _ => rfl
    unfold renderCsv
    rw [hrows]
    rfl
  refine ⟨hmain, ?_, rfl, by simp [selectCols], rfl⟩
  rw [hmain]
  rfl

/-- Claim C7 witness: the amended export contract applied to a concrete raw
Record frame. -/
theorem claim_C7_csv_export_amended_witness :
    ("item" ∈ exRecDF.cols ∧ "quantity" ∈ exRecDF.cols)
    ∧ headerLine (to_csv_bytes exRecDF) = "item,quantity" :=
  ⟨⟨by decide, by decide⟩,
   (claim_C7_csv_export_amended exRecDF (by decide) (by decide)).2.1⟩
